import Mathlib

/-!
Verification development for the log-ingestion core of pgmetrics
(src/collector/log.go).  The Go code is shallowly embedded: each Go
function that the claims mention is translated into an executable Lean
definition, with machine integers modelled as Int/Nat and fallible code
returning Except/Option.  Wall-clock instants are modelled as Go
time.Time values normalised to (seconds, nanoseconds) since the Unix
epoch; the reference instant time.Now() is an explicit parameter.
-/

deriving instance DecidableEq for Except

namespace PgLog

/-- Go time.Time, normalised to Unix seconds plus nanoseconds in [0, 1e9).
time.Unix(sec, nsec) performs this normalisation. -/
structure GoTime where
  sec : Int
  nsec : Int
deriving DecidableEq, Repr

/-- Go time.Unix normalisation: move whole seconds out of nsec so that the
stored nsec lies in [0, 1e9); Go adjusts a truncating division downward for
negative nsec, which is exactly floor division. -/
def goUnix (sec nsec : Int) : GoTime :=
  ⟨sec + nsec.fdiv 1000000000, nsec.fmod 1000000000⟩

/-- Go time.Time.Before: lexicographic comparison on (sec, nsec). -/
def GoTime.before (a b : GoTime) : Bool :=
  a.sec < b.sec ∨ (a.sec = b.sec ∧ a.nsec < b.nsec)

/-- Go time.Time.Unix(): whole seconds since epoch (nsec already in [0,1e9)). -/
def GoTime.unix (a : GoTime) : Int := a.sec

/-! ## Prefix compiler (compilePrefix, log.go lines 372-415)

The Go function translates the log_line_prefix format string into a
regular expression.  We embed the compiled regex as a list of tokens;
each token corresponds to one fragment that the Go loop appends to the
pattern string `r`. -/

/-- One fragment of the compiled prefix pattern.  `lit c` is a
QuoteMeta-escaped literal character; gT/gM/gN/gS/gU/gD are the named (or
for gS unnamed) groups appended for the directives t, m, n, s, u, d;
`qOpen` is the non-capturing optional group opened by the q directive
(closed at the end of the pattern); `generic` is the `(\S+)?` fragment
appended for any other directive character. -/
inductive PTok where
  | lit (c : Char)
  | gT | gM | gN | gS | gU | gD
  | qOpen
  | generic
deriving DecidableEq, Repr

/-- The character-scanning loop of compilePrefix: walks the format string,
translating each character (or %-escaped pair) into a token, and records
whether a t/m/n timestamp directive was seen (the Go variable `ts`).
A trailing bare percent sign is dropped (the Go loop breaks). -/
def compileScan : List Char → List PTok × Bool
  | [] => ([], false)
  | '%' :: [] => ([], false)
  | '%' :: c :: rest =>
    let (toks, ts) := compileScan rest
    if c = 't' then (PTok.gT :: toks, true)
    else if c = 'm' then (PTok.gM :: toks, true)
    else if c = 'n' then (PTok.gN :: toks, true)
    else if c = 's' then (PTok.gS :: toks, ts)
    else if c = 'u' then (PTok.gU :: toks, ts)
    else if c = 'd' then (PTok.gD :: toks, ts)
    else if c = 'q' then (PTok.qOpen :: toks, ts)
    else (PTok.generic :: toks, ts)
  | c :: rest =>
    let (toks, ts) := compileScan rest
    (PTok.lit c :: toks, ts)

/-- The single error value compilePrefix can return before attempting
regexp.Compile: the configuration error "no timestamp escape sequence was
found in log_line_prefix".  (A later regexp.Compile pattern error is a
different failure and is outside this model; the claims concern only the
configuration error.) -/
inductive CompileErr where
  | noTimestamp
deriving DecidableEq, Repr

/-- compilePrefix (log.go 372-415), up to the regexp.Compile call: scan the
format, and fail with the configuration error when no t/m/n directive was
seen. -/
def compilePrefixFn (fmt : String) : Except CompileErr (List PTok) :=
  let (toks, ts) := compileScan fmt.data
  if ts then Except.ok toks else Except.error CompileErr.noTimestamp

/-- Spec-side reading of "a %t, %m or %n directive occurs in the format":
scan left to right; a percent sign followed by t, m or n is a timestamp
directive; any other percent pair is consumed whole (so the t in %%t is a
literal, not a directive); a trailing bare percent is ignored. -/
def hasTsDirective : List Char → Bool
  | '%' :: c :: rest =>
    (c = 't' || c = 'm' || c = 'n') || hasTsDirective rest
  | _ :: rest => hasTsDirective rest
  | [] => false

/-! ## Regex fragments as character-class atoms

The groups emitted by the compiler are fixed regular expressions over
one line of text.  Each is a sequence of atoms: a literal character or a
bounded greedy character-class repetition.  The matcher enumerates the
candidate splits of each repetition longest-first, reproducing the
leftmost-first (backtracking) semantics Go regexp gives to submatches. -/

/-- Go regexp whitespace class: \s = [\t\n\f\r ]. -/
def goWhite (c : Char) : Bool :=
  c = ' ' || c = '\t' || c = '\n' || c = Char.ofNat 12 || c = '\r'

/-- Go regexp \S: any character not in \s. -/
def nonWhite (c : Char) : Bool := !goWhite c

/-- The username/database character class of the u and d directives:
[A-Za-z0-9_.\[\]-]. -/
def classUD (c : Char) : Bool :=
  c.isAlpha || c.isDigit || c = '_' || c = '.' || c = '[' || c = ']' || c = '-'

/-- One atom of a group regex: a single literal character, or a greedy
repetition of a character class with a lower bound and an optional upper
bound (none = unbounded). -/
inductive Atom where
  | ch (c : Char)
  | cls (f : Char → Bool) (lo : Nat) (hi : Option Nat)

/-- Length of the maximal class run at the head of the input. -/
def runLen (f : Char → Bool) : List Char → Nat
  | c :: rest => if f c then runLen f rest + 1 else 0
  | [] => 0

/-- hi, hi-1, ..., lo (empty when hi < lo): the candidate repetition
counts of a greedy repetition, longest first. -/
def descRange (hi lo : Nat) : List Nat :=
  (List.range (hi + 1 - lo)).map (fun i => hi - i)

/-- Candidate (consumed, rest) splits of one atom against the input, in
backtracking preference order. -/
def atomSplits : Atom → List Char → List (List Char × List Char)
  | Atom.ch c, x :: rest => if x = c then [([c], rest)] else []
  | Atom.ch _, [] => []
  | Atom.cls f lo hi, s =>
    let m := runLen f s
    let m := match hi with | some h => min h m | none => m
    (descRange m lo).map (fun k => (s.take k, s.drop k))

/-- Candidate (consumed, rest) splits of an atom sequence, earlier atoms
varying slowest (backtracking preference order). -/
def seqSplits : List Atom → List Char → List (List Char × List Char)
  | [], s => [([], s)]
  | a :: as, s =>
    (atomSplits a s).flatMap fun p =>
      (seqSplits as p.2).map fun q => (p.1 ++ q.1, q.2)

/-- Shared date-time core of the t/m/s groups:
\d{4}-\d{1,2}-\d{1,2} \d{2}:\d{2}:\d{2}. -/
def atomsYMDHMS : List Atom :=
  [Atom.cls Char.isDigit 4 (some 4), Atom.ch '-',
   Atom.cls Char.isDigit 1 (some 2), Atom.ch '-',
   Atom.cls Char.isDigit 1 (some 2), Atom.ch ' ',
   Atom.cls Char.isDigit 2 (some 2), Atom.ch ':',
   Atom.cls Char.isDigit 2 (some 2), Atom.ch ':',
   Atom.cls Char.isDigit 2 (some 2)]

/-- The t group (and the unnamed s group): date-time core then a space
and \S+. -/
def atomsT : List Atom := atomsYMDHMS ++ [Atom.ch ' ', Atom.cls nonWhite 1 none]

/-- The m group: date-time core, fractional seconds \.\d+, space, \S+. -/
def atomsM : List Atom :=
  atomsYMDHMS ++
  [Atom.ch '.', Atom.cls Char.isDigit 1 none, Atom.ch ' ', Atom.cls nonWhite 1 none]

/-- The n group: \d+\.\d+. -/
def atomsN : List Atom :=
  [Atom.cls Char.isDigit 1 none, Atom.ch '.', Atom.cls Char.isDigit 1 none]

/-- Values of the named capture groups after a prefix-pattern match; the
empty string stands for an absent or empty capture, exactly matching the
len(match[i]) > 0 tests of the Go code. -/
structure Captures where
  t : String := ""
  m : String := ""
  n : String := ""
  u : String := ""
  d : String := ""
deriving DecidableEq, Repr

/-- First successful alternative, in preference order. -/
def firstSome : List (Option α) → Option α
  | [] => none
  | some x :: _ => some x
  | none :: rest => firstSome rest

/-- Match a compiled token list against the input at the current
position, returning the captures and the unconsumed rest.  Backtracking
alternatives are tried in the leftmost-first preference order of the Go
regexp engine.  The q directive opens a group making the remaining
tokens optional, preferring the non-empty alternative. -/
def mtch : List PTok → List Char → Captures → Option (Captures × List Char)
  | [], s, cp => some (cp, s)
  | PTok.lit c :: ts, x :: rest, cp =>
    if x = c then mtch ts rest cp else none
  | PTok.lit _ :: _, [], _ => none
  | PTok.gT :: ts, s, cp =>
    firstSome ((seqSplits atomsT s).map fun p => mtch ts p.2 { cp with t := p.1.asString })
  | PTok.gM :: ts, s, cp =>
    firstSome ((seqSplits atomsM s).map fun p => mtch ts p.2 { cp with m := p.1.asString })
  | PTok.gN :: ts, s, cp =>
    firstSome ((seqSplits atomsN s).map fun p => mtch ts p.2 { cp with n := p.1.asString })
  | PTok.gS :: ts, s, cp =>
    firstSome ((seqSplits atomsT s).map fun p => mtch ts p.2 cp)
  | PTok.gU :: ts, s, cp =>
    firstSome ((seqSplits [Atom.cls classUD 1 (some 64)] s).map fun p =>
      mtch ts p.2 { cp with u := p.1.asString })
  | PTok.gD :: ts, s, cp =>
    firstSome ((seqSplits [Atom.cls classUD 1 (some 64)] s).map fun p =>
      mtch ts p.2 { cp with d := p.1.asString })
  | PTok.qOpen :: ts, s, cp =>
    (mtch ts s cp).orElse (fun _ => some (cp, s))
  | PTok.generic :: ts, s, cp =>
    firstSome (((seqSplits [Atom.cls nonWhite 1 none] s) ++ [(([] : List Char), s)]).map fun p =>
      mtch ts p.2 cp)

/-- Leftmost match of the compiled pattern in the input (Go
regexp.FindSubmatch): try each start position in order; return the start
offset, the captures, and the rest after the match end. -/
def findMatchFrom (toks : List PTok) : List Char → Option (Nat × Captures × List Char)
  | [] =>
    match mtch toks [] {} with
    | some (cp, rest) => some (0, cp, rest)
    | none => none
  | c :: s2 =>
    match mtch toks (c :: s2) {} with
    | some (cp, rest) => some (0, cp, rest)
    | none => (findMatchFrom toks s2).map fun r => (r.1 + 1, r.2)

/-! ## Timestamp decoder (getMatchData / firstTS, log.go 287-370)

Models of the Go stdlib pieces the decoder uses: time.Parse with the two
fixed layouts, strconv.ParseInt, and time.Unix.  time.Parse is modelled
for exactly the layouts the code passes: fixed-width numeric fields with
range validation, and a zone abbreviation recorded with offset zero (Go
fabricates a zero-offset zone for abbreviations not defined in the local
time zone database; the collector runs with a UTC local zone, where only
UTC itself is defined). -/

/-- Value of a nonempty all-digit run; none otherwise. -/
def digitsVal (cs : List Char) : Option Nat :=
  if cs.isEmpty then none
  else if cs.all Char.isDigit then
    some (cs.foldl (fun a c => a * 10 + (c.toNat - 48)) 0)
  else none

/-- strconv.ParseInt base 10: an optional sign then a nonempty digit
run.  (64-bit overflow is not modelled; the captures the regex produces
stay far below it in every claim.) -/
def parseIntGo : List Char → Except String Int
  | '+' :: rest =>
    match digitsVal rest with
    | some n => Except.ok (n : Int)
    | none => Except.error ("invalid integer")
  | '-' :: rest =>
    match digitsVal rest with
    | some n => Except.ok (-(n : Int))
    | none => Except.error ("invalid integer")
  | cs =>
    match digitsVal cs with
    | some n => Except.ok (n : Int)
    | none => Except.error ("invalid integer")

/-- Days between 1970-01-01 and the civil date y-m-d (proleptic
Gregorian), the standard days-from-civil computation used by calendar
libraries. -/
def daysFromCivil (y m d : Int) : Int :=
  let y2 := if m ≤ 2 then y - 1 else y
  let era := y2.fdiv 400
  let yoe := y2 - era * 400
  let mp := if m > 2 then m - 3 else m + 9
  let doy := (153 * mp + 2).fdiv 5 + d - 1
  let doe := yoe * 365 + yoe.fdiv 4 - yoe.fdiv 100 + doy
  era * 146097 + doe - 719468

/-- Gregorian leap year. -/
def isLeap (y : Int) : Bool := (y.fmod 4 = 0 && y.fmod 100 ≠ 0) || y.fmod 400 = 0

/-- Days in a month, as Go time.Parse uses to validate the day field. -/
def daysInMonth (y m : Int) : Int :=
  if m = 2 then (if isLeap y then 29 else 28)
  else if m = 4 || m = 6 || m = 9 || m = 11 then 30
  else 31

/-- Fixed-width digit field of Go time.Parse: exactly n digits. -/
def fixedNum (n : Nat) (s : List Char) : Option (Nat × List Char) :=
  let run := s.take n
  if run.length = n && run.all Char.isDigit then
    (digitsVal run).map (fun v => (v, s.drop n))
  else none

/-- Expect one literal character at the head of the input. -/
def expectC (c : Char) : List Char → Option (List Char)
  | x :: rest => if x = c then some rest else none
  | [] => none

/-- Shared "2006-01-02 15:04:05" core of the two layouts: parse and
range-check the six fields, returning them and the rest of the input. -/
def parseTimeCore (s : List Char) : Option (Int × Int × Int × Int × Int × Int × List Char) := do
  let (y, s) ← fixedNum 4 s
  let s ← expectC '-' s
  let (mo, s) ← fixedNum 2 s
  let s ← expectC '-' s
  let (dy, s) ← fixedNum 2 s
  let s ← expectC ' ' s
  let (hh, s) ← fixedNum 2 s
  let s ← expectC ':' s
  let (mi, s) ← fixedNum 2 s
  let s ← expectC ':' s
  let (ss, s) ← fixedNum 2 s
  if 1 ≤ mo && mo ≤ 12 && 1 ≤ (dy : Int) && (dy : Int) ≤ daysInMonth y mo
      && hh ≤ 23 && mi ≤ 59 && ss ≤ 59 then
    pure ((y : Int), (mo : Int), (dy : Int), (hh : Int), (mi : Int), (ss : Int), s)
  else none

/-- Zone abbreviation at the end of the layout: one run of uppercase
letters consuming the whole rest, recorded with offset zero. -/
def parseZoneAbbrev (s : List Char) : Bool :=
  !s.isEmpty && s.all (fun c => 'A' ≤ c && c ≤ 'Z')

/-- Seconds since epoch of a civil UTC date-time. -/
def civilSec (y mo dy hh mi ss : Int) : Int :=
  daysFromCivil y mo dy * 86400 + hh * 3600 + mi * 60 + ss

/-- Go time.Parse with layout "2006-01-02 15:04:05 MST". -/
def parseTimeT (s : List Char) : Except String GoTime :=
  match parseTimeCore s with
  | some (y, mo, dy, hh, mi, ss, rest) =>
    match rest with
    | ' ' :: z =>
      if parseZoneAbbrev z then Except.ok ⟨civilSec y mo dy hh mi ss, 0⟩
      else Except.error ("cannot parse timestamp")
    | _ => Except.error ("cannot parse timestamp")
  | none => Except.error ("cannot parse timestamp")

/-- Go time.Parse with layout "2006-01-02 15:04:05.000 MST": exactly
three fractional digits, scaled to nanoseconds. -/
def parseTimeM (s : List Char) : Except String GoTime :=
  match parseTimeCore s with
  | some (y, mo, dy, hh, mi, ss, rest) =>
    match rest with
    | '.' :: r2 =>
      match fixedNum 3 r2 with
      | some (ms, r3) =>
        match r3 with
        | ' ' :: z =>
          if parseZoneAbbrev z then
            Except.ok ⟨civilSec y mo dy hh mi ss, (ms : Int) * 1000000⟩
          else Except.error ("cannot parse timestamp")
        | _ => Except.error ("cannot parse timestamp")
      | none => Except.error ("cannot parse timestamp")
    | _ => Except.error ("cannot parse timestamp")
  | none => Except.error ("cannot parse timestamp")

/-- The n branch of getMatchData (log.go 307-324): split the capture on
the dot; the first part is seconds since epoch, and the second part is
multiplied by 1e9 and passed to time.Unix as the nanoseconds argument
(int64(float64(t2)*1e9), exact for the fraction sizes at issue). -/
def parseEpochN (s : List Char) : Except String GoTime :=
  match List.splitOn '.' s with
  | [p0] =>
    match parseIntGo p0 with
    | Except.ok t1 => Except.ok (goUnix t1 0)
    | Except.error _ => Except.error ("bad time format in log line")
  | [p0, p1] =>
    match parseIntGo p0 with
    | Except.ok t1 =>
      match parseIntGo p1 with
      | Except.ok t2 => Except.ok (goUnix t1 (t2 * 1000000000))
      | Except.error _ => Except.error ("bad time format in log line")
    | Except.error _ => Except.error ("bad time format in log line")
  | _ => Except.error ("wrong n format in log line")

/-- The zero value of Go time.Time (January 1, year 1, UTC) in the Unix
representation. -/
def goZeroTime : GoTime := ⟨-62135596800, 0⟩

/-- getMatchData (log.go 287-327): decode the named captures of a prefix
match into (timestamp, user, db), preferring m over t over n; an entry
with none of the three nonempty keeps the zero time and no error. -/
def getMatchData (cp : Captures) : Except String (GoTime × String × String) :=
  if cp.m ≠ "" then (parseTimeM cp.m.data).map (fun t => (t, cp.u, cp.d))
  else if cp.t ≠ "" then (parseTimeT cp.t.data).map (fun t => (t, cp.u, cp.d))
  else if cp.n ≠ "" then (parseEpochN cp.n.data).map (fun t => (t, cp.u, cp.d))
  else Except.ok (goZeroTime, cp.u, cp.d)

/-! ## Logical entries and the results sink (log.go 158-215) -/

/-- The recognized top-level severities (log.go 158). -/
def severities : List String :=
  ["DEBUG", "LOG", "INFO", "NOTICE", "WARNING", "ERROR", "FATAL", "PANIC"]

/-- One (level, line) extra sub-part of an entry (logEntryExtra). -/
structure EntryExtra where
  level : String
  line : String
deriving DecidableEq, Repr

/-- A reconstructed logical log entry (logEntry); the default value is
the Go zero value carried by the collector before any line is seen. -/
structure LogEntry where
  t : GoTime := goZeroTime
  user : String := ""
  db : String := ""
  level : String := ""
  line : String := ""
  extra : List EntryExtra := []
deriving DecidableEq, Repr

/-- logEntry.get (log.go 169-176): the line of the first extra whose
level equals the argument, or the empty string. -/
def getExtra : List EntryExtra → String → String
  | [], _ => ""
  | e :: rest, lvl => if e.level = lvl then e.line else getExtra rest lvl

/-- Method form of getExtra. -/
def LogEntry.get (l : LogEntry) (lvl : String) : String := getExtra l.extra lvl

/-- A captured auto_explain plan (pgmetrics.Plan fields used here). -/
structure Plan where
  database : String
  userName : String
  format : String
  query : String
  plan : String
  atSec : Int
deriving DecidableEq, Repr

/-- An autovacuum completion event (pgmetrics.AutoVacuum).  The elapsed
seconds are modelled as the exact decimal value; float64 rounding of
strconv.ParseFloat is not modelled. -/
structure AutoVacuum where
  atSec : Int
  table : String
  elapsed : ℚ
deriving DecidableEq, Repr

/-- A deadlock event (pgmetrics.Deadlock). -/
structure Deadlock where
  atSec : Int
  detail : String
deriving DecidableEq, Repr

/-- The results sink: the three append-only fact lists. -/
structure SinkResult where
  plans : List Plan := []
  autovacuums : List AutoVacuum := []
  deadlocks : List Deadlock := []
deriving DecidableEq, Repr

/-- The collector state the log reader mutates: the sink and the
current in-progress entry (c.result and c.currLog). -/
structure CState where
  result : SinkResult := {}
  currLog : LogEntry := {}
deriving DecidableEq, Repr

/-! ## Entry classifier regexes (log.go 19-24) as string functions -/

/-- Drop an expected literal from the head of the input. -/
def dropPfx : List Char → List Char → Option (List Char)
  | [], s => some s
  | c :: cs, x :: xs => if x = c then dropPfx cs xs else none
  | _ :: _, [] => none

/-- Nonempty greedy class run: the run and the rest, or none if empty. -/
def takeRun1 (f : Char → Bool) (s : List Char) : Option (List Char × List Char) :=
  let r := s.takeWhile f
  if r.isEmpty then none else some (r, s.dropWhile f)

/-- Split the input at the next newline: (current line, rest starting at
the newline). -/
def lineChunk (s : List Char) : List Char × List Char :=
  (s.takeWhile (fun c => c ≠ '\n'), s.dropWhile (fun c => c ≠ '\n'))

/-- The four optional capture groups of rxAEStart. -/
structure AECaps where
  g1 : String := ""
  g2 : String := ""
  g3 : String := ""
  g4 : String := ""
deriving DecidableEq, Repr

/-- Optional group 1 of rxAEStart, an opening JSON brace line:
open-brace, then [ \t]*, then a newline.  Returns (captured, rest);
captured is empty when the group does not match. -/
def optG1 (s : List Char) : List Char × List Char :=
  match s with
  | c :: rest =>
    if c = Char.ofNat 123 then
      let sp := rest.takeWhile (fun x => x = ' ' || x = '\t')
      let r2 := rest.dropWhile (fun x => x = ' ' || x = '\t')
      match r2 with
      | '\n' :: r3 => (c :: (sp ++ ['\n']), r3)
      | _ => ([], s)
    else ([], s)
  | [] => ([], s)

/-- Greedy `.*` to the end of the current line followed by a mandatory
newline, as in groups 2-4 of rxAEStart. -/
def restLineNL (s : List Char) : Option (List Char × List Char) :=
  let (chunk, rest) := lineChunk s
  match rest with
  | '\n' :: r2 => some (chunk ++ ['\n'], r2)
  | _ => none

/-- Optional group 2 of rxAEStart: `<explain xml` then the rest of the
line and a newline. -/
def optG2 (s : List Char) : List Char × List Char :=
  match dropPfx ("<explain xml").data s with
  | some s2 =>
    match restLineNL s2 with
    | some (c, r) => (("<explain xml").data ++ c, r)
    | none => ([], s)
  | none => ([], s)

/-- Optional group 3 of rxAEStart, the quoted Query Text line: the
literal `Query Text: "`, then `.*"` within the line, then a newline —
so the line must end in a double quote and be followed by a newline. -/
def optG3 (s : List Char) : List Char × List Char :=
  match dropPfx ("Query Text: \"").data s with
  | some s2 =>
    let (chunk, rest) := lineChunk s2
    match chunk.getLast?, rest with
    | some '"', '\n' :: r2 =>
      (("Query Text: \"").data ++ (chunk ++ ['\n']), r2)
    | _, _ => ([], s)
  | none => ([], s)

/-- Optional group 4 of rxAEStart, the unquoted Query Text line: the
literal `Query Text: `, one character other than a double quote, then
the rest of the line and a newline. -/
def optG4 (s : List Char) : List Char × List Char :=
  match dropPfx ("Query Text: ").data s with
  | some (c :: s2) =>
    if c = '"' then ([], s)
    else
      match restLineNL s2 with
      | some (ch, r) => (("Query Text: ").data ++ (c :: ch), r)
      | none => ([], s)
  | _ => ([], s)

/-- rxAEStart (log.go 20) applied to the starting text of the entry:
`^duration: [0-9]+\.[0-9]+ ms  plan:\n[ \t]+` followed by the four
optional groups; returns their captures when the signature matches. -/
def aeMatch (line : String) : Option AECaps := do
  let s := line.data
  let s ← dropPfx ("duration: ").data s
  let (_, s) ← takeRun1 Char.isDigit s
  let s ← expectC '.' s
  let (_, s) ← takeRun1 Char.isDigit s
  let s ← dropPfx (" ms  plan:\n").data s
  let (_, s) ← takeRun1 (fun c => c = ' ' || c = '\t') s
  let (g1, s) := optG1 s
  let (g2, s) := optG2 s
  let (g3, s) := optG3 s
  let (g4, _) := optG4 s
  pure ⟨g1.asString, g2.asString, g3.asString, g4.asString⟩

/-- Tail of rxAVStart after the optional wraparound group:
`of table "([^"]+)": index`, returning the captured table name. -/
def avOfTable (s : List Char) : Option String := do
  let s ← dropPfx ("of table \"").data s
  let (cap, rest) ← takeRun1 (fun c => c ≠ '"') s
  let _ ← dropPfx ("\": index").data rest
  pure cap.asString

/-- rxAVStart after `automatic `: the optional `aggressive ` (preferred,
as the engine is greedy), then `vacuum `, then the optional
`to prevent wraparound`, then the table tail. -/
def avVac (s : List Char) : Option String :=
  (dropPfx ("vacuum ").data s).bind fun s2 =>
    ((dropPfx ("to prevent wraparound").data s2).bind avOfTable).orElse
      (fun _ => avOfTable s2)

/-- rxAVStart match attempt at one input position. -/
def avTryAt (s : List Char) : Option String :=
  (dropPfx ("automatic ").data s).bind fun s2 =>
    ((dropPfx ("aggressive ").data s2).bind avVac).orElse (fun _ => avVac s2)

/-- Leftmost rxAVStart match in the line (unanchored FindStringSubmatch):
first position where the signature matches, returning the table capture. -/
def avFindAux : List Char → Option String
  | [] => none
  | c :: rest => (avTryAt (c :: rest)).orElse (fun _ => avFindAux rest)

/-- rxAVStart (log.go 23) over a string. -/
def avFind (line : String) : Option String := avFindAux line.data

/-- rxAVElapsed match attempt at one position: `, elapsed: ([0-9.]+) s`. -/
def avElTryAt (s : List Char) : Option String := do
  let s ← dropPfx (", elapsed: ").data s
  let (cap, rest) ← takeRun1 (fun c => c.isDigit || c = '.') s
  let _ ← dropPfx (" s").data rest
  pure cap.asString

/-- Leftmost rxAVElapsed match in the line. -/
def avElAux : List Char → Option String
  | [] => none
  | c :: rest => (avElTryAt (c :: rest)).orElse (fun _ => avElAux rest)

/-- rxAVElapsed (log.go 24) over a string. -/
def avElapsedFind (line : String) : Option String := avElAux line.data

/-- Value of a possibly-empty all-digit run (the empty run counts 0);
none if a non-digit occurs. -/
def digitsVal0 (cs : List Char) : Option Nat :=
  if cs.all Char.isDigit then
    some (cs.foldl (fun a c => a * 10 + (c.toNat - 48)) 0)
  else none

/-- strconv.ParseFloat of the elapsed capture, with a parse error
leaving the Go zero value 0 (the code discards the error).  Go's float
literal grammar accepts digits on either side of the decimal point as
long as at least one digit is present somewhere, so trailing-dot and
leading-dot captures such as 12. and .5 parse to 12 and 0.5, while a
bare dot, an empty string, or a second dot is a parse error.  The result
is the exact decimal value; float64 rounding is not modelled. -/
def parseFloatQ (s : String) : ℚ :=
  match List.splitOn '.' s.data with
  | [a] =>
    match digitsVal a with
    | some n => (n : ℚ)
    | none => 0
  | [a, b] =>
    if a.isEmpty && b.isEmpty then 0
    else
      match digitsVal0 a, digitsVal0 b with
      | some x, some y => (x : ℚ) + (y : ℚ) / ((10 : ℚ) ^ b.length)
      | _, _ => 0
  | _ => 0

/-- rxAESwitch1 (log.go 21): `^\s+Query Text: (.*)$` over one
newline-free line, returning the capture. -/
def sw1Match (l : String) : Option String :=
  let s := l.data
  let w := s.takeWhile goWhite
  if w.isEmpty then none
  else (dropPfx ("Query Text: ").data (s.dropWhile goWhite)).map List.asString

/-- Does some suffix start with `rows=` followed by a digit? -/
def rowsAt : List Char → Bool
  | [] => false
  | c :: rest =>
    (match dropPfx ("rows=").data (c :: rest) with
     | some (x :: _) => x.isDigit
     | _ => false) || rowsAt rest

/-- rxAESwitch2 (log.go 22): the line contains `cost=\d+.*rows=\d`. -/
def sw2Aux : List Char → Bool
  | [] => false
  | c :: rest =>
    (match dropPfx ("cost=").data (c :: rest) with
     | some (x :: r) => x.isDigit && rowsAt r
     | _ => false) || sw2Aux rest

/-- String form of rxAESwitch2. -/
def sw2Match (l : String) : Bool := sw2Aux l.data

/-- strings.Split on newlines. -/
def splitLines (s : String) : List String :=
  (List.splitOn '\n' s.data).map List.asString

/-- The text-variant scan of processAE (log.go 243-257): walk the lines;
a Query Text line resets the query field and points the accumulator at
it (skipping the append for that line); a cost/rows line switches the
accumulator to the plan body before appending; every other line is
appended, with a newline, to whichever field the accumulator points at,
or discarded while it points at neither. -/
def aeTextLoop : List String → String → String → Option Bool → String × String
  | [], q, p, _ => (q, p)
  | l :: ls, q, p, sp =>
    match sw1Match l with
    | some cap => aeTextLoop ls cap p (some false)
    | none =>
      let sp2 := if sw2Match l then some true else sp
      match sp2 with
      | some false => aeTextLoop ls (q ++ l ++ ("\n")) p sp2
      | some true => aeTextLoop ls q (p ++ l ++ ("\n")) sp2
      | none => aeTextLoop ls q p sp2

/-! ## Entry classifier and extractors (log.go 183-283)

The JSON branch of processAE calls encoding/json; that pipeline (split,
Unmarshal, move the Query Text field out, Marshal) is abstracted as an
explicit parameter jx giving the (query, plan) pair it produces for the
entry text.  No claim depends on the JSON branch. -/

/-- strings.ReplaceAll(s, tab, empty): remove every tab character. -/
def rmTabs (s : String) : String := (s.data.filter (fun c => c ≠ '\t')).asString

/-- processAE (log.go 217-260): build the captured plan from the rxAEStart
submatches and append it to the plans list. -/
def processAE (jx : String → String × String) (st : CState) (caps : AECaps) : CState :=
  let e := st.currLog
  let p0 : Plan :=
    { database := e.db, userName := e.user, format := "text",
      query := "", plan := "", atSec := e.t.unix }
  let p :=
    if caps.g1 ≠ "" then
      let qp := jx e.line
      { p0 with format := "json", query := qp.1, plan := qp.2 }
    else if caps.g2 ≠ "" then { p0 with format := "xml" }
    else if caps.g3 ≠ "" then { p0 with format := "yaml" }
    else if caps.g4 ≠ "" then
      let qp := aeTextLoop (splitLines e.line) "" "" none
      { p0 with format := "text", query := qp.1, plan := qp.2 }
    else p0
  { st with result := { st.result with plans := st.result.plans ++ [p] } }

/-- processAV (log.go 262-277): with the table captured by rxAVStart,
look for the elapsed marker in the entry text; append an autovacuum
event when found, do nothing when not. -/
def processAV (st : CState) (tbl : String) : CState :=
  let e := st.currLog
  match avElapsedFind e.line with
  | some es =>
    { st with result :=
        { st.result with autovacuums :=
            st.result.autovacuums ++
              [{ atSec := e.t.unix, table := tbl, elapsed := parseFloatQ es }] } }
  | none => st

/-- processDeadlock (log.go 279-283): append a deadlock event whose
detail is the first DETAIL extra with tabs removed and a newline
appended. -/
def processDeadlock (st : CState) : CState :=
  let e := st.currLog
  { st with result :=
      { st.result with deadlocks :=
          st.result.deadlocks ++
            [{ atSec := e.t.unix, detail := rmTabs (e.get ("DETAIL")) ++ ("\n") }] } }

/-- processLogEntry (log.go 206-215): classify the sealed current entry,
trying the auto_explain signature, then the autovacuum signature, then
the literal deadlock text. -/
def processLogEntry (jx : String → String × String) (st : CState) : CState :=
  match aeMatch st.currLog.line with
  | some caps => processAE jx st caps
  | none =>
    match avFind st.currLog.line with
    | some tbl => processAV st tbl
    | none =>
      if st.currLog.line = ("deadlock detected") then processDeadlock st else st

/-- processLogLine (log.go 183-204): a line whose level is a recognized
severity starts a new entry (sealing and classifying the previous one
unless this is the first processed line); any other line is appended to
the extras of the current entry. -/
def processLogLine (jx : String → String × String) (first : Bool) (t : GoTime)
    (user db level line : String) (st : CState) : CState :=
  if level ∈ severities then
    let st2 := if first then st else processLogEntry jx st
    { st2 with currLog :=
        { t := t, user := user, db := db, level := level, line := line, extra := [] } }
  else
    { st with currLog :=
        { st.currLog with extra := st.currLog.extra ++ [⟨level, line⟩] } }

/-! ## Forward pass (log.go 116-155)

The forward pass is modelled over the sequence of prefix matches found
in the big buffer: one RawLine per match, carrying the capture values of
the match and the raw text from the match end to the start of the next
match (or to the end of the buffer). -/

/-- One prefix match of the forward pass. -/
structure RawLine where
  caps : Captures
  text : String
deriving DecidableEq, Repr

/-- Strip a single trailing newline (log.go 138-140). -/
def stripNL (s : List Char) : List Char :=
  match s.getLast? with
  | some '\n' => s.dropLast
  | _ => s

/-- rxLogLevel (log.go 19): `^([A-Z]+):\s+` — an uppercase run, a colon
and at least one whitespace character; returns the level and the line
with the whole match stripped, or no level and the line unchanged. -/
def extractLevel (s : List Char) : String × List Char :=
  let caps := s.takeWhile (fun c => 'A' ≤ c && c ≤ 'Z')
  let rest := s.dropWhile (fun c => 'A' ≤ c && c ≤ 'Z')
  match caps, rest with
  | [], _ => ("", s)
  | _, ':' :: r2 =>
    let w := r2.takeWhile goWhite
    if w.isEmpty then ("", s) else (caps.asString, r2.dropWhile goWhite)
  | _, _ => ("", s)

/-- The forward loop of readLogLines (log.go 116-155): for each match,
decode its captures — a decode error returns the state as it stands
(return nil), with no final flush; an in-window line is processed after
newline stripping and level extraction; the final flush classifies the
last entry when at least one line was processed. -/
def forwardLoop (jx : String → String × String) (start : GoTime) :
    List RawLine → Nat → CState → CState
  | [], count, st => if count > 0 then processLogEntry jx st else st
  | l :: rest, count, st =>
    match getMatchData l.caps with
    | Except.error _ => st
    | Except.ok (t, user, db) =>
      if t.before start = false then
        let line0 := stripNL l.text.data
        let (level, line1) := extractLevel line0
        forwardLoop jx start rest (count + 1)
          (processLogLine jx (count = 0) t user db level line1.asString st)
      else forwardLoop jx start rest count st

/-- The window boundary of readLogLines (log.go 56-57):
start = now − logSpan minutes. -/
def windowStart (now : GoTime) (logSpan : Int) : GoTime :=
  ⟨now.sec - logSpan * 60, now.nsec⟩

/-- The full forward pass from the window parameters: filter boundary
computed from the wall clock instant at which the read runs. -/
def readForward (jx : String → String × String) (now : GoTime) (logSpan : Int)
    (lines : List RawLine) (st : CState) : CState :=
  forwardLoop jx (windowStart now logSpan) lines 0 st

/-! ## Window locator: the backward block scan (log.go 59-114)

Two models.  The byte-level model (firstTSBuf, scanBackBytes, further
below) is faithful: each iteration regex-matches the raw 4096 bytes of
the block, so a block boundary that cuts a timestamp mid-digits can
leave a spurious valid match at the head of the block (e.g. the tail of
a %n epoch), and a decode failure aborts the read.  The occurrence-level
model here abstracts the file as the list of genuine prefix-pattern
match occurrences, each with its byte offset, byte length and decoded
timestamp, and firstTS as the first occurrence lying fully inside the
block: it describes the scan under the additional assumption that every
match the pattern finds inside a scanned block is one of those
occurrences — the assumption under which the window-safety property is
provable at all (the byte-level counterexample below shows it fails
without it). -/

/-- One prefix-pattern match occurrence in the log file. -/
structure MLine where
  ofs : Nat
  len : Nat
  ts : Int
deriving DecidableEq, Repr

/-- Does the occurrence lie fully inside the 4096-byte block at ofs? -/
def inBlock (ofs : Nat) (l : MLine) : Bool :=
  ofs ≤ l.ofs && l.ofs + l.len ≤ ofs + 4096

/-- firstTS on the block at ofs, at occurrence level: the timestamp of
the first genuine occurrence lying fully inside the block, if any.
This equals the behaviour of firstTS (log.go 329-370) only under the
no-spurious-match assumption stated in the section comment; the
faithful byte-level firstTS is firstTSBuf below. -/
def blockFirst (lines : List MLine) (ofs : Nat) : Option Int :=
  ((lines.filter (inBlock ofs)).head?).map MLine.ts

/-- The backward scan loop of readLogLines (log.go 73-105): at each
candidate offset, io.ReadFull of the fixed 4096-byte block fails unless
a full block is available (the error aborts the read); if the first
timestamp in the block is strictly before start, stop here; at offset 0
stop unconditionally; otherwise move back 4096 bytes (negative offsets
clamp to 0). -/
def scanBack (lines : List MLine) (start : Int) (flen : Nat) (ofs : Nat) :
    Except Unit Nat :=
  if flen < ofs + 4096 then Except.error ()
  else
    match blockFirst lines ofs with
    | some ts =>
      if ts < start then Except.ok ofs
      else if h : ofs = 0 then Except.ok 0
      else scanBack lines start flen (ofs - 4096)
    | none =>
      if h : ofs = 0 then Except.ok 0
      else scanBack lines start flen (ofs - 4096)
termination_by ofs
decreasing_by all_goals omega

/-- readLogLines through the window-locator phase (log.go 48-114): an
empty file is a successful no-op producing no facts; otherwise the
backward scan either aborts the whole read with an I/O error (no facts)
or yields the offset from which the forward pass — abstracted here as a
function of that offset — produces the facts. -/
def readLogLinesScan (lines : List MLine) (start : Int) (flen : Nat)
    (forward : Nat → SinkResult) : Except Unit SinkResult :=
  if flen = 0 then Except.ok {}
  else (scanBack lines start flen (flen - 4096)).map forward

/-! ## Byte-level window locator -/

/-- firstTS (log.go 329-370) on raw block bytes: find the leftmost
pattern match in the buffer — truncated bytes included — and decode its
t/m/n capture; no match leaves the zero time (the IsZero signal), and a
decode failure is an error that aborts the read.  The decode branches
of firstTS are the same as those of getMatchData (the user/db captures
are simply unused). -/
def firstTSBuf (toks : List PTok) (buf : List Char) : Except String GoTime :=
  match findMatchFrom toks buf with
  | none => Except.ok goZeroTime
  | some (_, cp, _) => (getMatchData cp).map (fun x => x.1)

/-- The two ways the byte-level scan aborts the read: a short block read
(io.ReadFull) or a timestamp decode failure inside firstTS. -/
inductive ScanErr where
  | io
  | decode
deriving DecidableEq, Repr

/-- The backward scan loop of readLogLines (log.go 73-105) at byte
level: at each candidate offset read the raw 4096-byte block (a short
read aborts), run firstTS on its bytes (a decode failure aborts); a
found timestamp strictly before start stops the scan at the current
offset; offset 0 stops unconditionally; otherwise move back 4096
bytes. -/
def scanBackBytes (toks : List PTok) (start : GoTime) (file : List Char)
    (ofs : Nat) : Except ScanErr Nat :=
  if file.length < ofs + 4096 then Except.error ScanErr.io
  else
    match firstTSBuf toks ((file.drop ofs).take 4096) with
    | Except.error _ => Except.error ScanErr.decode
    | Except.ok t =>
      if t = goZeroTime then
        if h : ofs = 0 then Except.ok 0
        else scanBackBytes toks start file (ofs - 4096)
      else if t.before start then Except.ok ofs
      else
        if h : ofs = 0 then Except.ok 0
        else scanBackBytes toks start file (ofs - 4096)
termination_by ofs
decreasing_by all_goals omega

/-- A 4097-byte log file for the prefix format of a bare %n directive
and a space: a single line whose epoch timestamp is 99000.  The initial
scan offset is 4097 - 4096 = 1, and the block at offset 1 starts one
byte into the epoch digits, so its bytes begin 9000.0 followed by a
space — a complete, valid match of the pattern decoding to the spurious
early timestamp 9000. -/
def fileC : List Char :=
  ("99000.0 ").data ++ List.replicate 4088 'f' ++ ['\n']

/-! ## Single-line pipeline and concrete inputs -/

/-- The slice of readLogLines that one matched line goes through
(log.go 117-147): compile the format, find the leftmost prefix match,
decode its captures, take the raw text up to the next match (or the end
of input), strip one trailing newline, extract the severity level, and
build the logical entry. -/
def lineEntry (fmt input : String) : Option LogEntry :=
  match compilePrefixFn fmt with
  | Except.error _ => none
  | Except.ok toks =>
    match findMatchFrom toks input.data with
    | none => none
    | some (_, cp, rest) =>
      match getMatchData cp with
      | Except.error _ => none
      | Except.ok (t, user, db) =>
        let text :=
          match findMatchFrom toks rest with
          | none => rest
          | some (k, _, _) => rest.take k
        let text2 := stripNL text
        let (level, line1) := extractLevel text2
        some { t := t, user := user, db := db, level := level,
               line := line1.asString, extra := [] }

/-- Trivial stand-in for the JSON extraction parameter; no claim
exercises the JSON branch. -/
def jx0 : String → String × String := fun _ => ("", "")

/-- A forward-pass line whose epoch capture decodes to t = 100 s and
whose text is a deadlock entry start. -/
def dlLine : RawLine :=
  { caps := { n := "100.0" }, text := "ERROR: deadlock detected" }

/-- A forward-pass line whose timestamp capture does not decode
(month 13). -/
def badLine : RawLine :=
  { caps := { t := "2024-13-01 10:30:00 UTC" }, text := "LOG: x" }

/-- Two match occurrences with monotone timestamps for the scan witness. -/
def wLines : List MLine := [⟨0, 50, 10⟩, ⟨4096, 50, 100⟩]

/-- The autovacuum entry text of the claim example. -/
def avLineEx : String :=
  "automatic vacuum of table \"public.orders\": index scans: 1, elapsed: 12.34 s"

/-- Collector state whose sealed current entry is the claim example. -/
def stAV : CState := { currLog := { t := ⟨1000, 0⟩, level := "LOG", line := avLineEx } }

/-- An entry text matching both the auto_explain signature and the
autovacuum signature with an elapsed marker. -/
def avShadowLine : String :=
  "duration: 1.0 ms  plan:\n\tautomatic vacuum of table \"x\": index, elapsed: 1 s"

/-- Collector state sealed on the doubly-matching entry. -/
def stShadow : CState := { currLog := { line := avShadowLine } }

/-- An auto_explain entry whose quoted Query Text line is followed by a
further line. -/
def aeQuotedNL : String :=
  "duration: 0.5 ms  plan:\n\tQuery Text: \"SELECT 1\"\n\tPlan stuff"

/-- Collector state sealed on the quoted-with-continuation entry. -/
def stQuotedNL : CState :=
  { currLog := { t := ⟨5, 0⟩, user := "u1", db := "db1", line := aeQuotedNL } }

/-- An auto_explain entry whose quoted Query Text line is the final line
of the entry (no trailing newline survives line assembly). -/
def aeQuotedLast : String :=
  "duration: 0.5 ms  plan:\n\tQuery Text: \"SELECT 1\""

/-- Collector state sealed on the quoted-final-line entry. -/
def stQuotedLast : CState := { currLog := { line := aeQuotedLast } }

/-- Deadlock entry state with several DETAIL extras for the deadlock
witness. -/
def stDeadlock : CState :=
  { currLog := { t := ⟨7, 0⟩, level := "ERROR", line := "deadlock detected",
                 extra := [⟨"CONTEXT", "c1"⟩, ⟨"DETAIL", "a\tb"⟩, ⟨"DETAIL", "zz"⟩] } }

/-- A sink already holding one unrelated deadlock fact, with the default
current entry. -/
def stPre : CState := { result := { deadlocks := [{ atSec := 1, detail := "x" }] } }

/-- Combining form for the append-only behaviour of the forward pass:
the state reached from a sink res is the state reached from the empty
sink with res prepended to each fact list. -/
def appendRun (res : SinkResult) (r : CState) : CState :=
  ⟨⟨res.plans ++ r.result.plans,
    res.autovacuums ++ r.result.autovacuums,
    res.deadlocks ++ r.result.deadlocks⟩, r.currLog⟩

/-! ## Helper lemmas -/

/-- The ts flag computed by the compile scan agrees with the spec-side
directive scan. -/
theorem compileScan_snd (s : List Char) : (compileScan s).2 = hasTsDirective s := by
  induction s using compileScan.induct <;>
    simp_all [compileScan, hasTsDirective]

/-- logEntry.get returns the first extra with the given level. -/
theorem getExtra_eq_find (l : List EntryExtra) (lvl : String) :
    getExtra l lvl = ((l.find? (fun e => e.level = lvl)).map EntryExtra.line).getD ("") := by
  induction l with
  | nil => rfl
  | cons e rest ih =>
    by_cases h : e.level = lvl <;> simp [getExtra, List.find?_cons, h, ih]

/-- strconv.ParseFloat accepts a trailing-dot capture: 12. parses to 12. -/
theorem parseFloatQ_trailing_dot : parseFloatQ ("12.") = 12 := by
  have h0 : parseFloatQ ("12.") =
      ((12 : ℕ) : ℚ) + ((0 : ℕ) : ℚ) / ((10 : ℚ) ^ (0 : ℕ)) := rfl
  rw [h0]; norm_num

/-- strconv.ParseFloat accepts a leading-dot capture: .5 parses to 0.5. -/
theorem parseFloatQ_leading_dot : parseFloatQ (".5") = 1 / 2 := by
  have h0 : parseFloatQ (".5") =
      ((0 : ℕ) : ℚ) + ((5 : ℕ) : ℚ) / ((10 : ℚ) ^ (1 : ℕ)) := rfl
  rw [h0]; norm_num

/-- A bare dot (no digit on either side) is a ParseFloat error, left as
the Go zero value. -/
theorem parseFloatQ_bare_dot : parseFloatQ (".") = 0 := rfl

/-- A first timestamp in a block comes from a match occurrence at or
after the block offset. -/
theorem blockFirst_some {lines : List MLine} {ofs : Nat} {τ : Int}
    (h : blockFirst lines ofs = some τ) :
    ∃ p, p ∈ lines ∧ ofs ≤ p.ofs ∧ p.ts = τ := by
  unfold blockFirst at h
  cases hh : (lines.filter (inBlock ofs)).head? with
  | none => rw [hh] at h; simp at h
  | some p =>
    rw [hh] at h
    simp only [Option.map_some'] at h
    have hmem : p ∈ lines.filter (inBlock ofs) := by
      have := List.mem_of_mem_head? (l := lines.filter (inBlock ofs)) (a := p)
      exact this (by rw [hh]; rfl)
    obtain ⟨hin, hblk⟩ := List.mem_filter.mp hmem
    refine ⟨p, hin, ?_, by injection h⟩
    unfold inBlock at hblk
    simp at hblk
    exact_mod_cast hblk.1

/-! ## Claim theorems -/

/-- C2: compilePrefix returns the configuration error (and hence no
compiled pattern) exactly when no %t, %m or %n directive occurs in the
format string; a format with at least one of them never fails with that
configuration error. -/
theorem compilePrefixFn_error_iff_no_ts (fmt : String) :
    (compilePrefixFn fmt = Except.error CompileErr.noTimestamp) ↔
      hasTsDirective fmt.data = false := by
  unfold compilePrefixFn
  rw [← compileScan_snd]
  cases h : compileScan fmt.data with
  | mk toks ts => cases ts <;> simp

/-- C3: with the prefix format containing t, u and d directives and
bracket separators, the example line decodes to the entry with timestamp
2024-01-15T10:30:00Z (Unix second 1705314600), user alice, database
mydb, severity ERROR, and retained text with the level token and its
following spaces stripped. -/
theorem lineEntry_example_decodes :
    lineEntry ("%t [%u@%d] ") ("2024-01-15 10:30:00 UTC [alice@mydb] ERROR:  syntax error") =
      some { t := ⟨1705314600, 0⟩, user := "alice", db := "mydb",
             level := "ERROR", line := "syntax error", extra := [] } := by decide

/-- C4: the %n decoder multiplies the fractional-part integer by 1e9
nanoseconds, so the capture 1700000000.5 decodes to epoch second
1700000005 rather than to 1700000000 seconds plus 500000000
nanoseconds as the specification states. -/
theorem parseEpochN_fraction_bug :
    parseEpochN (("1700000000.5").data) = Except.ok ⟨1700000005, 0⟩ ∧
      (⟨1700000005, 0⟩ : GoTime) ≠ ⟨1700000000, 500000000⟩ := by decide

/-- C5 counterexample: with a line whose timestamp fails to decode
between two decodable deadlock entries, the forward pass does not behave
as if the failing line were skipped — it produces no facts at all, while
the skip-and-continue reading would classify both deadlock entries. -/
theorem forwardLoop_decode_error_counterexample :
    forwardLoop jx0 ⟨90, 0⟩ [dlLine, badLine, dlLine] 0 {} ≠
      forwardLoop jx0 ⟨90, 0⟩ [dlLine, dlLine] 0 {} := by decide

/-- C5 (amended): when getMatchData fails on a matched line, readLogLines
returns immediately with a nil error: the state as already accumulated is
kept, but the in-progress entry is never flushed and no subsequent line
is processed. -/
theorem forwardLoop_decode_error_stops (jx : String → String × String)
    (start : GoTime) (l : RawLine) (rest : List RawLine) (count : Nat)
    (st : CState) (e : String) (h : getMatchData l.caps = Except.error e) :
    forwardLoop jx start (l :: rest) count st = st := by
  unfold forwardLoop
  rw [h]

/-- C5 witness: the amended theorem at the concrete undecodable line. -/
theorem forwardLoop_decode_error_stops_witness :
    forwardLoop jx0 ⟨0, 0⟩ [badLine, dlLine] 0 {} = {} :=
  forwardLoop_decode_error_stops jx0 ⟨0, 0⟩ badLine [dlLine] 0 {}
    ("cannot parse timestamp") (by decide)

/-- C6: sealing an entry whose starting text is exactly `deadlock
detected` appends exactly one deadlock event, whose detail is the first
DETAIL extra sub-part (empty when none exists) with every tab removed
and a newline appended; the plans and autovacuum lists are untouched. -/
theorem processLogEntry_deadlock (jx : String → String × String) (st : CState)
    (h : st.currLog.line = ("deadlock detected")) :
    processLogEntry jx st =
      { st with result := { st.result with deadlocks :=
          st.result.deadlocks ++
            [{ atSec := st.currLog.t.unix,
               detail := rmTabs (st.currLog.get ("DETAIL")) ++ ("\n") }] } } ∧
    st.currLog.get ("DETAIL") =
      ((st.currLog.extra.find? (fun e => e.level = ("DETAIL"))).map
        EntryExtra.line).getD ("") := by
  refine ⟨?_, getExtra_eq_find _ _⟩
  unfold processLogEntry
  rw [h]
  have hae : aeMatch ("deadlock detected") = none := by decide
  have hav : avFind ("deadlock detected") = none := by decide
  rw [hae, hav]
  simp [processDeadlock, h]

/-- C6 witness: the deadlock theorem at a concrete entry with a CONTEXT
extra and two DETAIL extras; only the first DETAIL is used, its tab is
removed and a newline appended. -/
theorem processLogEntry_deadlock_witness :
    processLogEntry jx0 stDeadlock =
      { stDeadlock with result := { stDeadlock.result with deadlocks :=
          [{ atSec := 7, detail := ("ab\n") }] } } := by
  have h := (processLogEntry_deadlock jx0 stDeadlock (by decide)).1
  rw [h]; decide

/-- C7 counterexample: an entry matching the autovacuum signature (table
x) and carrying an elapsed marker, but whose starting text also matches
the auto_explain signature, yields no autovacuum event — the classifier
tries the auto_explain signature first. -/
theorem processLogEntry_av_shadowed_by_ae :
    avFind avShadowLine = some ("x") ∧
    avElapsedFind avShadowLine = some ("1") ∧
    (processLogEntry jx0 stShadow).result.autovacuums = [] := by decide

/-- C7 (amended): for a sealed entry whose starting text does not match
the auto_explain signature, if the autovacuum signature captures a table
and the entry text carries an elapsed marker then exactly one autovacuum
event with that table and the parsed elapsed seconds is appended; when
either piece is missing, the autovacuum list is unchanged and no error
results. -/
theorem processLogEntry_autovacuum (jx : String → String × String)
    (st : CState) (hae : aeMatch st.currLog.line = none) :
    (∀ tbl es, avFind st.currLog.line = some tbl →
      avElapsedFind st.currLog.line = some es →
      processLogEntry jx st =
        { st with result := { st.result with autovacuums :=
            st.result.autovacuums ++
              [{ atSec := st.currLog.t.unix, table := tbl,
                 elapsed := parseFloatQ es }] } }) ∧
    (avFind st.currLog.line = none ∨ avElapsedFind st.currLog.line = none →
      (processLogEntry jx st).result.autovacuums = st.result.autovacuums) := by
  constructor
  · intro tbl es hav hel
    simp [processLogEntry, processAV, hae, hav, hel]
  · intro hmiss
    rcases hmiss with hav | hel
    · simp only [processLogEntry, hae, hav]
      split <;> simp [processDeadlock]
    · cases hav : avFind st.currLog.line with
      | none =>
        simp only [processLogEntry, hae, hav]
        split <;> simp [processDeadlock]
      | some tbl =>
        simp [processLogEntry, processAV, hae, hav, hel]

/-- C7 witness: the amended theorem at the claim example entry, yielding
the event with table public.orders and elapsed 12.34 seconds. -/
theorem processLogEntry_autovacuum_witness :
    (processLogEntry jx0 stAV).result.autovacuums =
      [{ atSec := 1000, table := ("public.orders"),
         elapsed := (1234 : ℚ) / 100 }] := by
  have h := (processLogEntry_autovacuum jx0 stAV (by decide)).1
    ("public.orders") ("12.34") (by decide) (by decide)
  rw [h]
  have hq : parseFloatQ ("12.34") = (1234 : ℚ) / 100 := by
    have h0 : parseFloatQ ("12.34") =
        ((12 : ℕ) : ℚ) + ((34 : ℕ) : ℚ) / ((10 : ℚ) ^ (2 : ℕ)) := rfl
    rw [h0]; norm_num
  simp [stAV, hq, GoTime.unix]

/-- C10 counterexample: an auto_explain entry whose quoted Query Text
line is the final line of the entry (no following newline) does not produce a
yaml-tagged plan: all optional groups stay empty and the appended plan
keeps the initial text tag with empty query and plan body. -/
theorem processLogEntry_quoted_lastline :
    aeMatch aeQuotedLast = some { g1 := "", g2 := "", g3 := "", g4 := "" } ∧
    (processLogEntry jx0 stQuotedLast).result.plans =
      [{ database := "", userName := "", format := "text",
         query := "", plan := "", atSec := goZeroTime.unix }] := by decide

/-- C10 (amended): for an auto_explain entry (JSON and XML groups
unmatched), a newline-terminated quoted Query Text line selects the yaml
format tag with empty query and plan body; only an unquoted Query Text
line selects the text variant, in which query text and plan rows are
extracted from the entry lines. -/
theorem processLogEntry_ae_variants (jx : String → String × String)
    (st : CState) (caps : AECaps) (h : aeMatch st.currLog.line = some caps)
    (h1 : caps.g1 = "") (h2 : caps.g2 = "") :
    (caps.g3 ≠ "" →
      processLogEntry jx st =
        { st with result := { st.result with plans := st.result.plans ++
            [{ database := st.currLog.db, userName := st.currLog.user,
               format := "yaml", query := "", plan := "",
               atSec := st.currLog.t.unix }] } }) ∧
    (caps.g3 = "" → caps.g4 ≠ "" →
      processLogEntry jx st =
        { st with result := { st.result with plans := st.result.plans ++
            [{ database := st.currLog.db, userName := st.currLog.user,
               format := "text",
               query := (aeTextLoop (splitLines st.currLog.line) "" "" none).1,
               plan := (aeTextLoop (splitLines st.currLog.line) "" "" none).2,
               atSec := st.currLog.t.unix }] } }) := by
  constructor
  · intro h3
    unfold processLogEntry
    rw [h]
    unfold processAE
    simp [h1, h2, h3]
  · intro h3 h4
    unfold processLogEntry
    rw [h]
    unfold processAE
    simp [h1, h2, h3, h4]

/-- C10 witness: the amended theorem at the quoted-with-continuation
entry: the plan is tagged yaml with empty query and body. -/
theorem processLogEntry_ae_variants_witness :
    processLogEntry jx0 stQuotedNL =
      { stQuotedNL with result := { stQuotedNL.result with plans :=
          [{ database := "db1", userName := "u1", format := "yaml",
             query := "", plan := "", atSec := 5 }] } } := by
  have h := (processLogEntry_ae_variants jx0 stQuotedNL
    { g1 := "", g2 := "", g3 := ("Query Text: \"SELECT 1\"\n"), g4 := "" }
    (by decide) rfl rfl).1 (by decide)
  rw [h]; decide

/-- Composing two append-only phases associates. -/
theorem appendRun_assoc (a : SinkResult) (b q : CState) :
    appendRun (appendRun a b).result q = appendRun a (appendRun b.result q) := by
  simp [appendRun, List.append_assoc]

/-- The classifier only appends: its effect from any sink is its effect
from the empty sink, prepended with the sink contents. -/
theorem processLogEntry_append (jx : String → String × String) (st : CState) :
    processLogEntry jx st =
      appendRun st.result (processLogEntry jx ⟨{}, st.currLog⟩) := by
  obtain ⟨res, cur⟩ := st
  cases hae : aeMatch cur.line with
  | some caps => simp [processLogEntry, hae, processAE, appendRun]
  | none =>
    cases hav : avFind cur.line with
    | some tbl =>
      cases hel : avElapsedFind cur.line <;>
        simp [processLogEntry, hae, hav, processAV, hel, appendRun]
    | none =>
      simp only [processLogEntry, hae, hav]
      by_cases hd : cur.line = ("deadlock detected")
      · simp [hd, processDeadlock, appendRun]
      · simp [hd, appendRun]

/-- processLogLine only appends facts (and rewrites the current entry
from its previous value alone). -/
theorem processLogLine_append (jx : String → String × String) (first : Bool)
    (t : GoTime) (user db level line : String) (st : CState) :
    processLogLine jx first t user db level line st =
      appendRun st.result
        (processLogLine jx first t user db level line ⟨{}, st.currLog⟩) := by
  obtain ⟨res, cur⟩ := st
  by_cases hsev : level ∈ severities
  · cases first
    · simp only [processLogLine, hsev, if_true, Bool.false_eq_true, if_false,
        ite_true, ite_false]
      rw [processLogEntry_append jx ⟨res, cur⟩]
      simp [appendRun]
    · simp [processLogLine, hsev, appendRun]
  · simp [processLogLine, hsev, appendRun]

/-- The forward pass only appends: from any starting state it produces
the facts it would produce from the empty sink, prepended with the
sink contents, and a current entry independent of the sink. -/
theorem forwardLoop_append (jx : String → String × String) (start : GoTime)
    (lines : List RawLine) :
    ∀ (count : Nat) (st : CState),
      forwardLoop jx start lines count st =
        appendRun st.result (forwardLoop jx start lines count ⟨{}, st.currLog⟩) := by
  induction lines with
  | nil =>
    intro count st
    by_cases hc : count > 0
    · simp only [forwardLoop, hc, if_true]
      exact processLogEntry_append jx st
    · simp [forwardLoop, hc, appendRun]
  | cons l rest ih =>
    intro count st
    cases hgm : getMatchData l.caps with
    | error e => simp [forwardLoop, hgm, appendRun]
    | ok tud =>
      obtain ⟨t, user, db⟩ := tud
      by_cases hb : t.before start = false
      · simp only [forwardLoop, hgm, hb, if_true]
        rw [ih (count + 1) (processLogLine jx (count = 0) t user db
              (extractLevel (stripNL l.text.data)).1
              (extractLevel (stripNL l.text.data)).2.asString st),
            processLogLine_append]
        rw [ih (count + 1) (processLogLine jx (count = 0) t user db
              (extractLevel (stripNL l.text.data)).1
              (extractLevel (stripNL l.text.data)).2.asString ⟨{}, st.currLog⟩),
            processLogLine_append jx (count = 0) t user db _ _ ⟨{}, st.currLog⟩]
        simp only [appendRun_assoc]
        simp [appendRun]
      · simp only [forwardLoop, hgm, hb, if_false]
        rw [if_neg (by simp [hb]), if_neg (by simp [hb])]
        exact ih count st

/-- C8 counterexample: over the same match sequence and the same window
size, two runs at different wall-clock instants produce different fact
lists — the extracted facts are not a function of the file contents and
window configuration alone. -/
theorem readForward_wallclock_counterexample :
    readForward jx0 ⟨150, 0⟩ 1 [dlLine] {} ≠
      readForward jx0 ⟨200, 0⟩ 1 [dlLine] {} := by decide

/-- C8 (amended): the full read is a deterministic function of the match
sequence, the window size and the reference instant now at which the
read runs: two runs with those equal and the same in-progress entry
append byte-identical fact lists regardless of previously accumulated
facts, and leave the same in-progress entry. -/
theorem readForward_sink_independent (jx : String → String × String)
    (now : GoTime) (logSpan : Int) (lines : List RawLine) (st1 st2 : CState)
    (h : st1.currLog = st2.currLog) :
    (readForward jx now logSpan lines st1).result.plans.drop
        st1.result.plans.length =
      (readForward jx now logSpan lines st2).result.plans.drop
        st2.result.plans.length ∧
    (readForward jx now logSpan lines st1).result.autovacuums.drop
        st1.result.autovacuums.length =
      (readForward jx now logSpan lines st2).result.autovacuums.drop
        st2.result.autovacuums.length ∧
    (readForward jx now logSpan lines st1).result.deadlocks.drop
        st1.result.deadlocks.length =
      (readForward jx now logSpan lines st2).result.deadlocks.drop
        st2.result.deadlocks.length ∧
    (readForward jx now logSpan lines st1).currLog =
      (readForward jx now logSpan lines st2).currLog := by
  unfold readForward
  rw [forwardLoop_append jx _ lines 0 st1, forwardLoop_append jx _ lines 0 st2, h]
  simp [appendRun, List.drop_left]

/-- C8 witness: the amended theorem at a concrete deadlock line, with
one sink already holding an unrelated deadlock fact and the other empty. -/
theorem readForward_sink_independent_witness :
    (readForward jx0 ⟨150, 0⟩ 1 [dlLine] stPre).result.deadlocks.drop 1 =
      (readForward jx0 ⟨150, 0⟩ 1 [dlLine] {}).result.deadlocks.drop 0 := by
  have h := readForward_sink_independent jx0 ⟨150, 0⟩ 1 [dlLine] stPre {} (by decide)
  simpa [stPre] using h.2.2.1

/-- C9: a nonempty log file shorter than one 4096-byte scan block makes
readLogLines abort with an I/O error before any fact is extracted (the
fixed-size block read at the clamped offset 0 cannot be satisfied);
only the exactly-empty file is a successful no-op with no facts. -/
theorem readLogLinesScan_short_file (lines : List MLine) (start : Int)
    (forward : Nat → SinkResult) (flen : Nat) :
    (0 < flen → flen < 4096 →
      readLogLinesScan lines start flen forward = Except.error ()) ∧
    (flen = 0 → readLogLinesScan lines start flen forward = Except.ok {}) := by
  constructor
  · intro h1 h2
    unfold readLogLinesScan
    rw [if_neg (by omega)]
    rw [scanBack]
    rw [if_pos (by omega)]
    rfl
  · intro h
    subst h
    rfl

/-- C9 witness: the theorem at a 100-byte file and at the empty file. -/
theorem readLogLinesScan_short_file_witness :
    readLogLinesScan [] 0 100 (fun _ => {}) = Except.error () ∧
      readLogLinesScan [] 0 0 (fun _ => {}) = Except.ok {} :=
  ⟨(readLogLinesScan_short_file [] 0 (fun _ => {}) 100).1 (by norm_num) (by norm_num),
   (readLogLinesScan_short_file [] 0 (fun _ => {}) 0).2 rfl⟩

/-- C1 counterexample: the backward scan is run over the raw bytes of
each 4096-byte block, and a block boundary cutting a %n epoch mid-digits
leaves a spurious valid match at the head of the block.  In the
4097-byte file fileC the single line starts at offset 0 with timestamp
99000, which is at or after the window start 50000; yet the block at the
initial offset 1 begins 9000.0 followed by a space, firstTS decodes the
spurious timestamp 9000, it is strictly before 50000, and the scan stops
with offset 1 — strictly after the byte offset 0 of the first (and only)
line whose timestamp is within the window, so that line is omitted from
the forward pass.  The timestamps of the genuine lines (there is one)
are trivially monotone. -/
theorem scanBack_truncated_counterexample :
    compilePrefixFn ("%n ") = Except.ok [PTok.gN, PTok.lit ' '] ∧
    fileC.length = 4097 ∧
    ((findMatchFrom [PTok.gN, PTok.lit ' '] fileC).map (fun r => r.1)) = some 0 ∧
    ((findMatchFrom [PTok.gN, PTok.lit ' '] fileC).bind
        (fun r => ((getMatchData r.2.1).map (fun x => x.1)).toOption)) =
      some ⟨99000, 0⟩ ∧
    GoTime.before ⟨99000, 0⟩ ⟨50000, 0⟩ = false ∧
    scanBackBytes [PTok.gN, PTok.lit ' '] ⟨50000, 0⟩ fileC 1 = Except.ok 1 ∧
    ¬ (1 : Nat) ≤ 0 := by
  have h8 : ("99000.0 ").data.length = 8 := rfl
  have hlen : fileC.length = 4097 := by
    unfold fileC
    rw [List.length_append, List.length_append, List.length_replicate, h8]
    rfl
  refine ⟨by decide, hlen, by decide, by decide, by decide, ?_, by decide⟩
  rw [scanBackBytes]
  rw [if_neg (by simp [hlen])]
  rw [show firstTSBuf [PTok.gN, PTok.lit ' '] ((fileC.drop 1).take 4096) =
        Except.ok ⟨9000, 0⟩ from by decide]
  decide

/-- C1 (amended): for a file whose genuine prefix-match occurrences have
timestamps monotonically non-decreasing in the byte offset, and under
the assumption that every match the pattern finds within a scanned block
is such a genuine occurrence lying fully inside the block (no spurious
match assembled from truncated bytes at a block boundary, as the
counterexample exhibits), whenever the backward block scan returns a
start offset, that offset lies at or before the byte offset of every
occurrence whose timestamp is at or after the window start — so the
forward pass, which reads from the returned offset to the end of file,
omits no line whose timestamp is within the window. -/
theorem scanBack_window_safe (lines : List MLine) (start : Int) (flen : Nat)
    (hmono : ∀ a ∈ lines, ∀ b ∈ lines, a.ofs ≤ b.ofs → a.ts ≤ b.ts) :
    ∀ ofs r, scanBack lines start flen ofs = Except.ok r →
      ∀ l ∈ lines, start ≤ l.ts → r ≤ l.ofs := by
  intro ofs
  induction ofs using Nat.strong_induction_on with
  | _ ofs ih =>
    intro r hs l hl hts
    rw [scanBack] at hs
    split at hs
    · exact absurd hs (by simp)
    · split at hs
      · rename_i ts hbf
        split at hs
        · rename_i hts2
          injection hs with hr
          obtain ⟨p, hp, hpo, hpts⟩ := blockFirst_some hbf
          by_contra hlt
          push_neg at hlt
          have hle : l.ofs ≤ p.ofs := by omega
          have := hmono l hl p hp hle
          omega
        · split at hs
          · injection hs with hr
            omega
          · rename_i hts2 h0
            exact ih (ofs - 4096) (by omega) r hs l hl hts
      · split at hs
        · injection hs with hr
          omega
        · rename_i hbf h0
          exact ih (ofs - 4096) (by omega) r hs l hl hts

/-- C1 witness: two monotone match occurrences over an 8192-byte file;
the scan stops at offset 0, at or before the in-window match at 4096. -/
theorem scanBack_window_safe_witness : (0 : Nat) ≤ 4096 := by
  have hrun : scanBack wLines 50 8192 4096 = Except.ok 0 := by
    rw [scanBack]
    norm_num [show blockFirst wLines 4096 = some 100 from by decide]
    rw [scanBack]
    norm_num [show blockFirst wLines 0 = some 10 from by decide]
  exact scanBack_window_safe wLines 50 8192 (by decide) 4096 0 hrun
    ⟨4096, 50, 100⟩ (by decide) (by decide)

end PgLog
